import Mathlib

set_option maxRecDepth 400000

/-!
Shallow embedding of the two Anchor programs of this repository:
`blockchain/contracts/solana/council_selection/src/lib.rs` and
`blockchain/contracts/solana/voting/src/lib.rs`.

Each instruction handler becomes a pure function from the prior record,
the caller identity (for handlers whose accounts struct carries a
`has_one = authority` constraint) and the clock value to
`Except Err <record>`; `Except.error` models an aborted transaction that
writes nothing back.  The `tally_votes` handler accumulates ballot weights
in IEEE-754 binary64 (`f64`) arithmetic; the `fp64` namespace models that
arithmetic exactly, representing every finite nonnegative double as its
integer numerator over `2 ^ 1074` and rounding with round-to-nearest,
ties-to-even.  The model is exact for the whole normal range of `f64`
(all values that arise from confidences `≤ 100` stay far inside it).
-/

namespace fp64

/-- Fuel-bounded floor of the base-2 logarithm: `lg2F fuel n = ⌊log₂ n⌋`
whenever `1 ≤ n < 2 ^ fuel`. -/
def lg2F : Nat → Nat → Nat
  | 0, _ => 0
  | fuel + 1, n => if n ≤ 1 then 0 else lg2F fuel (n / 2) + 1

/-- Floor of the base-2 logarithm, valid for `n < 2 ^ 2400`. -/
def lg2 (n : Nat) : Nat := lg2F 2400 n

/-- Least `k` with `d ≤ n * 2 ^ k`, for `1 ≤ n` (and `d < n * 2 ^ 2400`). -/
def nlg (n d : Nat) : Nat :=
  if d ≤ n then 0
  else if 2 ^ lg2 ((d + n - 1) / n) = (d + n - 1) / n then
    lg2 ((d + n - 1) / n)
  else lg2 ((d + n - 1) / n) + 1

/-- Floor of `log₂ (n / d)` as an integer, for `1 ≤ n` and `1 ≤ d`. -/
def floorLog2Q (n d : Nat) : Int :=
  if d ≤ n then (lg2 (n / d) : Int) else -(nlg n d : Int)

/-- Unit scale of the double model: every finite IEEE-754 binary64 value is
an integer multiple of `2 ^ (-1074)`. -/
def U : Nat := 2 ^ 1074

/-- Round the nonnegative rational `sn / sd` to the nearest integer, ties
to the even neighbour. -/
def roundQ (sn sd : Nat) : Nat :=
  if 2 * (sn % sd) < sd then sn / sd
  else if sd < 2 * (sn % sd) then sn / sd + 1
  else if (sn / sd) % 2 = 0 then sn / sd else sn / sd + 1

/-- Round the nonnegative rational `n / d` to the nearest IEEE-754 binary64
value (round to nearest, ties to even), returned as its numerator over
`2 ^ 1074`.  For a value with floor exponent `e`, the rounding grid is
`2 ^ (e - 52)`; the computation scales the input onto that grid, rounds the
scaled quotient to an integer with `roundQ`, and rescales. -/
def round53 (n d : Nat) : Nat :=
  if n = 0 then 0
  else
    roundQ (n * 2 ^ (52 - floorLog2Q n d).toNat)
        (d * 2 ^ (floorLog2Q n d - 52).toNat) *
      2 ^ (floorLog2Q n d - 52 + 1074).toNat

/-- Model of `f64` addition of two doubles given in `2 ^ (-1074)` units:
the exact sum, rounded. -/
def fadd (a b : Nat) : Nat := round53 (a + b) U

/-- Model of multiplying a double by the exactly representable constant
`100.0`: the exact product, rounded.  This is the scaling step
`(score * 100.0)` of `tally_votes`. -/
def fmul100 (a : Nat) : Nat := round53 (100 * a) U

/-- Model of `confidence as f64 / 100.0`: the integer cast is exact, the
quotient is rounded. -/
def wdiv100 (c : Nat) : Nat := round53 c 100

/-- Model of Rust's saturating `as u16` cast of a nonnegative double given
in `2 ^ (-1074)` units: truncate toward zero, clamp at `u16::MAX`. -/
def toU16 (a : Nat) : Nat := min (a / U) 65535

/-- The exact rational value of a double given in `2 ^ (-1074)` units. -/
def val (m : Nat) : ℚ := (m : ℚ) / (U : ℚ)

/-- Error-analysis invariant: the accumulator `m` lies within `k` rounding
steps (of width `2 ^ (-46)` each) of a partial sum `A` that is between `0`
and `k`. -/
def accClose (k : Nat) (A : ℚ) (m : Nat) : Prop :=
  0 ≤ A ∧ A ≤ k ∧ A - k * (1 / 2 ^ 46 : ℚ) ≤ val m ∧
    val m ≤ A + k * (1 / 2 ^ 46 : ℚ)

end fp64

/-- Opaque 32-byte principal identifier (`Pubkey`), modelled abstractly. -/
abbrev Pubkey := Nat

deriving instance DecidableEq for Except

namespace voting

/-- `VoteOption` from `voting/src/lib.rs`. -/
inductive VoteOption
  | Support
  | Oppose
  | Neutral
  | Abstain
deriving DecidableEq

/-- `DebateStatus` from `voting/src/lib.rs`. -/
inductive DebateStatus
  | Active
  | Completed
  | Closed
deriving DecidableEq

/-- `Vote` record from `voting/src/lib.rs`. -/
structure Vote where
  agent_id : String
  vote_option : VoteOption
  confidence : Nat
  reasoning : String
  timestamp : Int
deriving DecidableEq

/-- `Debate` account from `voting/src/lib.rs`. -/
structure Debate where
  debate_id : String
  topic : String
  authority : Pubkey
  max_rounds : Nat
  current_round : Nat
  votes : List Vote
  timestamp : Int
  completion_timestamp : Int
  status : DebateStatus
  outcome : Option VoteOption
  support_score : Nat
  oppose_score : Nat
  neutral_score : Nat
  votes_tallied : Bool
deriving DecidableEq

/-- `ErrorCode` enum of the voting program. -/
inductive ErrorCode
  | DebateNotActive
  | InvalidConfidence
  | AlreadyVoted
  | NoVotes
  | VotesNotTallied
deriving DecidableEq

/-- Failure of a voting instruction: either the Anchor
`has_one = authority` account constraint rejected the caller, the handler
aborted with a program error code, or a Rust `Option::unwrap` panicked. -/
inductive Err
  | hasOneViolation
  | code (c : ErrorCode)
  | unwrapPanic
deriving DecidableEq

/-- `VoteResults` return value of `get_results`. -/
structure VoteResults where
  debate_id : String
  outcome : VoteOption
  support_score : Nat
  oppose_score : Nat
  neutral_score : Nat
  total_votes : Nat
deriving DecidableEq

/-- `initialize_debate`: creates the account.  Fields the handler does not
assign start zeroed, as Anchor zero-initializes fresh accounts. -/
def init_debate (debate_id topic : String) (authority : Pubkey)
    (max_rounds : Nat) (now : Int) : Debate :=
  { debate_id := debate_id
    topic := topic
    authority := authority
    max_rounds := max_rounds
    current_round := 0
    votes := []
    timestamp := now
    completion_timestamp := 0
    status := DebateStatus.Active
    outcome := none
    support_score := 0
    oppose_score := 0
    neutral_score := 0
    votes_tallied := false }

/-- `cast_vote`: the `CastVote` accounts struct has no `has_one`
constraint, so any signer may call it.  The guards mirror the `require!`
sequence of the handler; there is no ballot-count guard in the source. -/
def cast_vote (d : Debate) (agent_id : String) (vote_option : VoteOption)
    (confidence : Nat) (reasoning : String) (now : Int) :
    Except Err Debate :=
  if d.status ≠ DebateStatus.Active then
    Except.error (Err.code ErrorCode.DebateNotActive)
  else if 100 < confidence then
    Except.error (Err.code ErrorCode.InvalidConfidence)
  else if d.votes.any (fun v => v.agent_id == agent_id) then
    Except.error (Err.code ErrorCode.AlreadyVoted)
  else
    Except.ok { d with votes := d.votes ++
      [{ agent_id := agent_id
         vote_option := vote_option
         confidence := confidence
         reasoning := reasoning
         timestamp := now }] }

/-- One iteration of the `f64` accumulation loop of `tally_votes`: add
`confidence as f64 / 100.0` to the accumulator of the ballot's option;
`Abstain` adds to none. -/
def tallyStep (acc : Nat × Nat × Nat) (v : Vote) : Nat × Nat × Nat :=
  match v.vote_option with
  | VoteOption.Support =>
      (fp64.fadd acc.1 (fp64.wdiv100 v.confidence), acc.2.1, acc.2.2)
  | VoteOption.Oppose =>
      (acc.1, fp64.fadd acc.2.1 (fp64.wdiv100 v.confidence), acc.2.2)
  | VoteOption.Neutral =>
      (acc.1, acc.2.1, fp64.fadd acc.2.2 (fp64.wdiv100 v.confidence))
  | VoteOption.Abstain => acc

/-- The `f64` accumulation loop of `tally_votes`: fold over the ballots in
order.  Result `(support, oppose, neutral)` in `2 ^ (-1074)` units. -/
def tallyAccum (votes : List Vote) : Nat × Nat × Nat :=
  votes.foldl tallyStep (0, 0, 0)

/-- The winner determination of `tally_votes`: the `f64` comparisons of
the accumulators coincide with exact comparisons of their modelled values
(same `2 ^ (-1074)` unit on both sides). -/
def tallyOutcome (votes : List Vote) : VoteOption :=
  if (tallyAccum votes).2.1 < (tallyAccum votes).1 ∧
      (tallyAccum votes).2.2 < (tallyAccum votes).1 then VoteOption.Support
  else if (tallyAccum votes).1 < (tallyAccum votes).2.1 ∧
      (tallyAccum votes).2.2 < (tallyAccum votes).2.1 then VoteOption.Oppose
  else VoteOption.Neutral

/-- The record written back by a successful `tally_votes`: outcome, the
three scores (accumulator times `100.0`, truncated to `u16` with Rust's
saturating float cast), the tallied flag, the `Completed` status and the
completion timestamp. -/
def tallyResult (d : Debate) (now : Int) : Debate :=
  { d with
    outcome := some (tallyOutcome d.votes)
    support_score := fp64.toU16 (fp64.fmul100 (tallyAccum d.votes).1)
    oppose_score := fp64.toU16 (fp64.fmul100 (tallyAccum d.votes).2.1)
    neutral_score := fp64.toU16 (fp64.fmul100 (tallyAccum d.votes).2.2)
    votes_tallied := true
    status := DebateStatus.Completed
    completion_timestamp := now }

/-- `tally_votes`: `TallyVotes` carries `has_one = authority`, checked
before the handler body; then the `require!` guards, then the tally. -/
def tally_votes (caller : Pubkey) (d : Debate) (now : Int) :
    Except Err Debate :=
  if caller ≠ d.authority then Except.error Err.hasOneViolation
  else if d.status ≠ DebateStatus.Active then
    Except.error (Err.code ErrorCode.DebateNotActive)
  else if d.votes.length = 0 then
    Except.error (Err.code ErrorCode.NoVotes)
  else
    Except.ok (tallyResult d now)

/-- `close_debate`: `CloseDebate` carries `has_one = authority`; the
handler body sets the status unconditionally, with no status guard. -/
def close_debate (caller : Pubkey) (d : Debate) : Except Err Debate :=
  if caller ≠ d.authority then Except.error Err.hasOneViolation
  else Except.ok { d with status := DebateStatus.Closed }

/-- `get_results`: read-only; requires `votes_tallied` and then unwraps
`outcome` (a `None` there would be a Rust panic).  `votes.len() as u16`
wraps modulo `2 ^ 16`. -/
def get_results (d : Debate) : Except Err VoteResults :=
  if d.votes_tallied = false then
    Except.error (Err.code ErrorCode.VotesNotTallied)
  else
    match d.outcome with
    | some o =>
        Except.ok
          { debate_id := d.debate_id
            outcome := o
            support_score := d.support_score
            oppose_score := d.oppose_score
            neutral_score := d.neutral_score
            total_votes := d.votes.length % 65536 }
    | none => Except.error Err.unwrapPanic

/-- Modelled from the spec: the exact integer sum of the confidences of
the ballots cast for a given option (the accumulators of the spec's
mandated integer tally rule). -/
def specSum (opt : VoteOption) (votes : List Vote) : Nat :=
  ((votes.filter (fun v => v.vote_option == opt)).map
    (fun v => v.confidence)).sum

/-- Modelled from the spec: the stored score the spec prescribes,
`min (specSum opt votes) 65535`. -/
def specScore (opt : VoteOption) (votes : List Vote) : Nat :=
  min (specSum opt votes) 65535

/-- Debate states reachable from `initialize_debate` with `max_rounds = m`
through the declared transitions. -/
inductive DReach (m : Nat) : Debate → Prop
  | init (debate_id topic : String) (authority : Pubkey) (now : Int) :
      DReach m (init_debate debate_id topic authority m now)
  | cast {d d' : Debate} (agent_id : String) (vote_option : VoteOption)
      (confidence : Nat) (reasoning : String) (now : Int) :
      DReach m d →
      cast_vote d agent_id vote_option confidence reasoning now =
        Except.ok d' →
      DReach m d'
  | tally {d d' : Debate} (caller : Pubkey) (now : Int) :
      DReach m d → tally_votes caller d now = Except.ok d' → DReach m d'
  | close {d d' : Debate} (caller : Pubkey) :
      DReach m d → close_debate caller d = Except.ok d' → DReach m d'

end voting

namespace council_selection

/-- `SessionStatus` from `council_selection/src/lib.rs`. -/
inductive SessionStatus
  | Initialized
  | VRFRequested
  | VRFFulfilled
  | AgentsSelected
  | Completed
deriving DecidableEq

/-- `CouncilSession` account from `council_selection/src/lib.rs`. -/
structure CouncilSession where
  session_id : String
  authority : Pubkey
  required_agents : Nat
  diversity_required : Bool
  selected_agents : List String
  vrf_seed : Nat
  vrf_fulfilled : Bool
  random_number : Nat
  vrf_proof : List Nat
  timestamp : Int
  selection_timestamp : Int
  status : SessionStatus
deriving DecidableEq

/-- `ErrorCode` enum of the council-selection program. -/
inductive ErrorCode
  | InvalidSessionStatus
  | InvalidVRFProof
  | InvalidAgentCount
  | SessionNotFound
deriving DecidableEq

/-- Failure of a council-selection instruction: either the Anchor
`has_one = authority` constraint rejected the caller or the handler
aborted with a program error code. -/
inductive Err
  | hasOneViolation
  | code (c : ErrorCode)
deriving DecidableEq

/-- `initialize_session`: creates the account with no validation of
`required_agents`.  Fields the handler does not assign start zeroed. -/
def init_session (session_id : String) (authority : Pubkey)
    (required_agents : Nat) (diversity_required : Bool) (now : Int) :
    CouncilSession :=
  { session_id := session_id
    authority := authority
    required_agents := required_agents
    diversity_required := diversity_required
    selected_agents := []
    vrf_seed := 0
    vrf_fulfilled := false
    random_number := 0
    vrf_proof := []
    timestamp := now
    selection_timestamp := 0
    status := SessionStatus.Initialized }

/-- `request_vrf`: `RequestVRF` carries `has_one = authority`. -/
def request_vrf (caller : Pubkey) (s : CouncilSession) (vrf_seed : Nat) :
    Except Err CouncilSession :=
  if caller ≠ s.authority then Except.error Err.hasOneViolation
  else if s.status ≠ SessionStatus.Initialized then
    Except.error (Err.code ErrorCode.InvalidSessionStatus)
  else
    Except.ok { s with vrf_seed := vrf_seed
                       status := SessionStatus.VRFRequested }

/-- `fulfill_vrf`: `FulfillVRF` has no `has_one` constraint; any signer
may call it.  Checks only that the proof is non-empty. -/
def fulfill_vrf (s : CouncilSession) (random_number : Nat)
    (vrf_proof : List Nat) : Except Err CouncilSession :=
  if s.status ≠ SessionStatus.VRFRequested then
    Except.error (Err.code ErrorCode.InvalidSessionStatus)
  else if vrf_proof.length = 0 then
    Except.error (Err.code ErrorCode.InvalidVRFProof)
  else
    Except.ok { s with vrf_fulfilled := true
                       random_number := random_number
                       vrf_proof := vrf_proof
                       status := SessionStatus.VRFFulfilled }

/-- `select_agents`: `SelectAgents` carries `has_one = authority`.  The
handler checks the status and the length of the supplied list; the source
contains no distinctness check of the ids. -/
def select_agents (caller : Pubkey) (s : CouncilSession)
    (agent_ids : List String) (now : Int) : Except Err CouncilSession :=
  if caller ≠ s.authority then Except.error Err.hasOneViolation
  else if s.status ≠ SessionStatus.VRFFulfilled then
    Except.error (Err.code ErrorCode.InvalidSessionStatus)
  else if agent_ids.length ≠ s.required_agents then
    Except.error (Err.code ErrorCode.InvalidAgentCount)
  else
    Except.ok { s with selected_agents := agent_ids
                       status := SessionStatus.AgentsSelected
                       selection_timestamp := now }

/-- `verify_selection`: read-only; requires `AgentsSelected` and returns
the conjunction computed by the source (`vrf_fulfilled`, matching agent
count, non-empty proof) — the source contains no diversity conjunct. -/
def verify_selection (s : CouncilSession) : Except Err Bool :=
  if s.status ≠ SessionStatus.AgentsSelected then
    Except.error (Err.code ErrorCode.InvalidSessionStatus)
  else
    Except.ok (s.vrf_fulfilled &&
      (s.selected_agents.length == s.required_agents) &&
      decide (0 < s.vrf_proof.length))

/-- Modelled from the spec: the verdict `verify_selection` should return,
including the diversity conjunct (`if diversity required, entries
distinct`). -/
def specVerify (s : CouncilSession) : Bool :=
  s.vrf_fulfilled &&
    (s.selected_agents.length == s.required_agents) &&
    decide (0 < s.vrf_proof.length) &&
    (!s.diversity_required || decide s.selected_agents.Nodup)

/-- Session states reachable from `initialize_session` through the
declared transitions (`verify_selection` is read-only). -/
inductive SReach : CouncilSession → Prop
  | init (session_id : String) (authority : Pubkey)
      (required_agents : Nat) (diversity_required : Bool) (now : Int) :
      SReach (init_session session_id authority required_agents
        diversity_required now)
  | request {s s' : CouncilSession} (caller : Pubkey) (vrf_seed : Nat) :
      SReach s → request_vrf caller s vrf_seed = Except.ok s' → SReach s'
  | fulfill {s s' : CouncilSession} (random_number : Nat)
      (vrf_proof : List Nat) :
      SReach s → fulfill_vrf s random_number vrf_proof = Except.ok s' →
      SReach s'
  | select {s s' : CouncilSession} (caller : Pubkey)
      (agent_ids : List String) (now : Int) :
      SReach s → select_agents caller s agent_ids now = Except.ok s' →
      SReach s'

end council_selection

open voting council_selection

/-- Concrete fixture: an active debate holding one Support ballot with
confidence 29. -/
def debate29 : Debate :=
  { init_debate "d1" "thema" 7 1 0 with
    votes := [{ agent_id := "a"
                vote_option := VoteOption.Support
                confidence := 29
                reasoning := ""
                timestamp := 0 }] }

/-- The record produced by tallying `debate29` at time 3. -/
def debate29Tallied : Debate := tallyResult debate29 3

/-- Helper for building ballot fixtures. -/
def mkVote (i : String) : Vote :=
  { agent_id := i
    vote_option := VoteOption.Support
    confidence := 50
    reasoning := ""
    timestamp := 0 }

/-- Twenty ballots with pairwise distinct agent ids. -/
def votes20 : List Vote :=
  [mkVote "b01", mkVote "b02", mkVote "b03", mkVote "b04", mkVote "b05",
   mkVote "b06", mkVote "b07", mkVote "b08", mkVote "b09", mkVote "b10",
   mkVote "b11", mkVote "b12", mkVote "b13", mkVote "b14", mkVote "b15",
   mkVote "b16", mkVote "b17", mkVote "b18", mkVote "b19", mkVote "b20"]

/-- Concrete fixture: an active debate already holding 20 ballots. -/
def debate20 : Debate := { init_debate "d2" "t" 5 1 0 with votes := votes20 }

/-- Concrete fixture: a session in `VRFFulfilled` with
`diversity_required = true` (reachable from `initialize_session`,
`request_vrf`, `fulfill_vrf`). -/
def sessionVF : CouncilSession :=
  { session_id := "s1"
    authority := 1
    required_agents := 2
    diversity_required := true
    selected_agents := []
    vrf_seed := 42
    vrf_fulfilled := true
    random_number := 7
    vrf_proof := [1]
    timestamp := 0
    selection_timestamp := 0
    status := SessionStatus.VRFFulfilled }

/-- The session `select_agents` writes back from `sessionVF` when handed
the duplicate list `["a", "a"]`. -/
def sessionDup : CouncilSession :=
  { sessionVF with
    selected_agents := ["a", "a"]
    status := SessionStatus.AgentsSelected
    selection_timestamp := 9 }

/-- Successful `cast_vote` implies the guards held and the write-back
appended exactly one ballot. -/
theorem cast_vote_ok_shape {d : Debate} {a : String} {vo : VoteOption}
    {c : Nat} {r : String} {t : Int} {d' : Debate}
    (h : cast_vote d a vo c r t = Except.ok d') :
    d.status = DebateStatus.Active ∧ c ≤ 100 ∧
      (d.votes.any (fun v => v.agent_id == a)) = false ∧
      d' = { d with votes := d.votes ++
        [{ agent_id := a, vote_option := vo, confidence := c,
           reasoning := r, timestamp := t }] } := by
  unfold cast_vote at h
  split_ifs at h with h1 h2 h3
  exact ⟨not_not.mp h1, by omega, by simpa using h3, (Except.ok.inj h).symm⟩

/-- Successful `tally_votes` implies the guards held and the write-back is
`tallyResult`. -/
theorem tally_votes_ok_shape {caller : Pubkey} {d : Debate} {now : Int}
    {d' : Debate} (h : tally_votes caller d now = Except.ok d') :
    caller = d.authority ∧ d.status = DebateStatus.Active ∧
      d.votes ≠ [] ∧ d' = tallyResult d now := by
  unfold tally_votes at h
  split_ifs at h with h1 h2 h3
  exact ⟨not_not.mp h1, not_not.mp h2,
    fun hnil => h3 (by simp [hnil]), (Except.ok.inj h).symm⟩

/-- Successful `close_debate` implies the caller matched and the
write-back only flipped the status to `Closed`. -/
theorem close_debate_ok_shape {caller : Pubkey} {d : Debate} {d' : Debate}
    (h : close_debate caller d = Except.ok d') :
    caller = d.authority ∧ d' = { d with status := DebateStatus.Closed } := by
  unfold close_debate at h
  split_ifs at h with h1
  exact ⟨not_not.mp h1, (Except.ok.inj h).symm⟩

/-- Successful `request_vrf` implies the guards held and characterizes the
write-back. -/
theorem request_vrf_ok_shape {caller : Pubkey} {s : CouncilSession}
    {seed : Nat} {s' : CouncilSession}
    (h : request_vrf caller s seed = Except.ok s') :
    caller = s.authority ∧ s.status = SessionStatus.Initialized ∧
      s' = { s with vrf_seed := seed,
                    status := SessionStatus.VRFRequested } := by
  unfold request_vrf at h
  split_ifs at h with h1 h2
  exact ⟨not_not.mp h1, not_not.mp h2, (Except.ok.inj h).symm⟩

/-- Successful `fulfill_vrf` implies the guards held and characterizes the
write-back. -/
theorem fulfill_vrf_ok_shape {s : CouncilSession} {rn : Nat}
    {proof : List Nat} {s' : CouncilSession}
    (h : fulfill_vrf s rn proof = Except.ok s') :
    s.status = SessionStatus.VRFRequested ∧ proof ≠ [] ∧
      s' = { s with vrf_fulfilled := true, random_number := rn,
                    vrf_proof := proof,
                    status := SessionStatus.VRFFulfilled } := by
  unfold fulfill_vrf at h
  split_ifs at h with h1 h2
  exact ⟨not_not.mp h1, fun hnil => h2 (by simp [hnil]), (Except.ok.inj h).symm⟩

/-- Successful `select_agents` implies the guards held and characterizes
the write-back: the supplied list is stored as given. -/
theorem select_agents_ok_shape {caller : Pubkey} {s : CouncilSession}
    {ids : List String} {now : Int} {s' : CouncilSession}
    (h : select_agents caller s ids now = Except.ok s') :
    caller = s.authority ∧ s.status = SessionStatus.VRFFulfilled ∧
      ids.length = s.required_agents ∧
      s' = { s with selected_agents := ids,
                    status := SessionStatus.AgentsSelected,
                    selection_timestamp := now } := by
  unfold select_agents at h
  split_ifs at h with h1 h2 h3
  exact ⟨not_not.mp h1, not_not.mp h2, not_not.mp h3, (Except.ok.inj h).symm⟩

/-- Case analysis of the winner rule, independent of the accumulator
values: a strictly greatest accumulator wins, otherwise `Neutral`, and
`Abstain` is never produced. -/
theorem tallyOutcome_spec (votes : List Vote) :
    (((tallyAccum votes).2.1 < (tallyAccum votes).1 ∧
        (tallyAccum votes).2.2 < (tallyAccum votes).1) →
      tallyOutcome votes = VoteOption.Support) ∧
    (((tallyAccum votes).1 < (tallyAccum votes).2.1 ∧
        (tallyAccum votes).2.2 < (tallyAccum votes).2.1) →
      tallyOutcome votes = VoteOption.Oppose) ∧
    (((tallyAccum votes).1 < (tallyAccum votes).2.2 ∧
        (tallyAccum votes).2.1 < (tallyAccum votes).2.2) →
      tallyOutcome votes = VoteOption.Neutral) ∧
    ((¬ ((tallyAccum votes).2.1 < (tallyAccum votes).1 ∧
         (tallyAccum votes).2.2 < (tallyAccum votes).1)) →
     (¬ ((tallyAccum votes).1 < (tallyAccum votes).2.1 ∧
         (tallyAccum votes).2.2 < (tallyAccum votes).2.1)) →
      tallyOutcome votes = VoteOption.Neutral) ∧
    tallyOutcome votes ≠ VoteOption.Abstain := by
  unfold tallyOutcome
  split_ifs with h1 h2
  · exact ⟨fun _ => rfl, fun hc => absurd hc (by omega),
      fun hc => absurd hc (by omega), fun hn _ => absurd h1 hn,
      by decide⟩
  · exact ⟨fun hc => absurd hc (by omega), fun _ => rfl,
      fun hc => absurd hc (by omega), fun _ hn => absurd h2 hn,
      by decide⟩
  · exact ⟨fun hc => absurd hc (by omega), fun hc => absurd hc (by omega),
      fun _ => rfl, fun _ _ => rfl, by decide⟩


/-- The fixture `sessionVF` is reachable through the declared transitions. -/
theorem sessionVF_reachable : SReach sessionVF := by
  have h0 : SReach (init_session "s1" 1 2 true 0) := SReach.init "s1" 1 2 true 0
  have h1 : request_vrf 1 (init_session "s1" 1 2 true 0) 42 =
      Except.ok { init_session "s1" 1 2 true 0 with
        vrf_seed := 42, status := SessionStatus.VRFRequested } := by decide
  have h2 : fulfill_vrf { init_session "s1" 1 2 true 0 with
        vrf_seed := 42, status := SessionStatus.VRFRequested } 7 [1] =
      Except.ok sessionVF := by decide
  exact SReach.fulfill 7 [1] (SReach.request 1 42 h0 h1) h2

/-- The fixture `debate29Tallied` is reachable through the declared
transitions with `max_rounds = 1`. -/
theorem debate29Tallied_reachable : DReach 1 debate29Tallied := by
  have h0 : DReach 1 (init_debate "d1" "thema" 7 1 0) :=
    DReach.init "d1" "thema" 7 0
  have h1 : cast_vote (init_debate "d1" "thema" 7 1 0) "a"
      VoteOption.Support 29 "" 0 = Except.ok debate29 := by decide
  have h2 : tally_votes 7 debate29 3 = Except.ok debate29Tallied := by decide
  exact DReach.tally 7 3 (DReach.cast "a" VoteOption.Support 29 "" 0 h0 h1) h2

/-- C2 (confirmed): on every successful `tally_votes`, the stored outcome
is the option among Support, Oppose, Neutral whose accumulated score is
strictly greater than both others; when no accumulator is strictly
greatest the outcome is `Neutral`; the outcome is never `Abstain`. -/
theorem c2_outcome_is_strict_argmax (caller : Pubkey) (d : Debate)
    (now : Int) (d' : Debate) (h : tally_votes caller d now = Except.ok d') :
    (((tallyAccum d.votes).2.1 < (tallyAccum d.votes).1 ∧
        (tallyAccum d.votes).2.2 < (tallyAccum d.votes).1) →
      d'.outcome = some VoteOption.Support) ∧
    (((tallyAccum d.votes).1 < (tallyAccum d.votes).2.1 ∧
        (tallyAccum d.votes).2.2 < (tallyAccum d.votes).2.1) →
      d'.outcome = some VoteOption.Oppose) ∧
    (((tallyAccum d.votes).1 < (tallyAccum d.votes).2.2 ∧
        (tallyAccum d.votes).2.1 < (tallyAccum d.votes).2.2) →
      d'.outcome = some VoteOption.Neutral) ∧
    ((¬ ((tallyAccum d.votes).2.1 < (tallyAccum d.votes).1 ∧
         (tallyAccum d.votes).2.2 < (tallyAccum d.votes).1)) →
     (¬ ((tallyAccum d.votes).1 < (tallyAccum d.votes).2.1 ∧
         (tallyAccum d.votes).2.2 < (tallyAccum d.votes).2.1)) →
      d'.outcome = some VoteOption.Neutral) ∧
    d'.outcome ≠ some VoteOption.Abstain := by
  obtain ⟨-, -, -, rfl⟩ := tally_votes_ok_shape h
  have hs := tallyOutcome_spec d.votes
  have houtcome : (tallyResult d now).outcome = some (tallyOutcome d.votes) := rfl
  rw [houtcome]
  exact ⟨fun hc => by rw [hs.1 hc], fun hc => by rw [hs.2.1 hc],
    fun hc => by rw [hs.2.2.1 hc],
    fun hn1 hn2 => by rw [hs.2.2.2.1 hn1 hn2],
    fun hc => hs.2.2.2.2 (Option.some.inj hc)⟩

/-- Witness for C2 at the concrete fixture `debate29`: the single Support
ballot makes Support the strict maximum and the stored outcome. -/
theorem c2_witness : debate29Tallied.outcome = some VoteOption.Support :=
  (c2_outcome_is_strict_argmax 7 debate29 3 debate29Tallied (by decide)).1
    (by decide)

/-- C3 (code_bug evaluation): from a reachable `VRFFulfilled` session with
`diversity_required = true`, `select_agents` accepts a duplicate id list of
the required length: it succeeds and stores the duplicates, instead of
failing with a diversity error (the source has no distinctness check and
no such error code). -/
theorem c3_select_agents_accepts_duplicates :
    SReach sessionVF ∧
    sessionVF.diversity_required = true ∧
    select_agents 1 sessionVF ["a", "a"] 9 = Except.ok sessionDup ∧
    sessionDup.status = SessionStatus.AgentsSelected ∧
    ¬ sessionDup.selected_agents.Nodup := by
  exact ⟨sessionVF_reachable, by decide, by decide, by decide, by decide⟩

/-- C4 counterexample: a debate with `status = Completed` (obtained by a
real `tally_votes`) is mutated by a subsequent `close_debate` of the
authority, which succeeds and moves the status to `Closed` — refuting that
every mutating transition fails on a `Completed` debate. -/
theorem c4_counterexample_close_succeeds_on_completed :
    tally_votes 7 debate29 3 = Except.ok debate29Tallied ∧
    debate29Tallied.status = DebateStatus.Completed ∧
    close_debate 7 debate29Tallied =
      Except.ok { debate29Tallied with status := DebateStatus.Closed } ∧
    ({ debate29Tallied with status := DebateStatus.Closed }).status ≠
      DebateStatus.Completed := by
  refine ⟨by decide, by decide, by decide, by decide⟩

/-- C4 (amended): on a `Completed` debate, `cast_vote` and `tally_votes`
fail and leave the record unchanged, but `close_debate` by the authority
succeeds from any state and only flips the status to `Closed`; on every
reachable debate, `votes_tallied = true` implies the status is `Completed`
or `Closed`. -/
theorem c4_completed_blocks_cast_and_tally :
    (∀ (d : Debate) a vo c r t, d.status = DebateStatus.Completed →
      cast_vote d a vo c r t =
        Except.error (voting.Err.code voting.ErrorCode.DebateNotActive)) ∧
    (∀ caller (d : Debate) now, d.status = DebateStatus.Completed →
      tally_votes caller d now = Except.error voting.Err.hasOneViolation ∨
      tally_votes caller d now =
        Except.error (voting.Err.code voting.ErrorCode.DebateNotActive)) ∧
    (∀ caller (d : Debate),
      close_debate caller d = Except.error voting.Err.hasOneViolation ∨
      close_debate caller d =
        Except.ok { d with status := DebateStatus.Closed }) ∧
    (∀ m (d : Debate), DReach m d → d.votes_tallied = true →
      d.status = DebateStatus.Completed ∨ d.status = DebateStatus.Closed) := by
  refine ⟨?_, ?_, ?_, ?_⟩
  · intro d a vo c r t hst
    unfold cast_vote
    rw [if_pos (by simp [hst])]
  · intro caller d now hst
    by_cases hc : caller = d.authority
    · right
      unfold tally_votes
      rw [if_neg (by simp [hc]), if_pos (by simp [hst])]
    · left
      unfold tally_votes
      rw [if_pos hc]
  · intro caller d
    by_cases hc : caller = d.authority
    · right
      unfold close_debate
      rw [if_neg (by simp [hc])]
    · left
      unfold close_debate
      rw [if_pos hc]
  · intro m d hreach
    induction hreach with
    | init did topic auth now => intro hf; simp [init_debate] at hf
    | cast a vo c r t hprev hok ih =>
        obtain ⟨-, -, -, rfl⟩ := cast_vote_ok_shape hok
        exact ih
    | tally caller now hprev hok ih =>
        obtain ⟨-, -, -, rfl⟩ := tally_votes_ok_shape hok
        intro _
        left
        rfl
    | close caller hprev hok ih =>
        obtain ⟨-, rfl⟩ := close_debate_ok_shape hok
        intro _
        right
        rfl

/-- Witness for C4's amended theorem at concrete inputs: the guards fire on
the completed fixture and `close_debate` rewrites an arbitrary record's
status. -/
theorem c4_witness :
    cast_vote debate29Tallied "z" VoteOption.Support 1 "" 0 =
      Except.error (voting.Err.code voting.ErrorCode.DebateNotActive) ∧
    (tally_votes 7 debate29Tallied 4 =
        Except.error voting.Err.hasOneViolation ∨
     tally_votes 7 debate29Tallied 4 =
        Except.error (voting.Err.code voting.ErrorCode.DebateNotActive)) ∧
    (debate29Tallied.status = DebateStatus.Completed ∨
     debate29Tallied.status = DebateStatus.Closed) :=
  ⟨c4_completed_blocks_cast_and_tally.1 debate29Tallied "z" VoteOption.Support
      1 "" 0 (by decide),
   c4_completed_blocks_cast_and_tally.2.1 7 debate29Tallied 4 (by decide),
   c4_completed_blocks_cast_and_tally.2.2.2 1 debate29Tallied
     debate29Tallied_reachable (by decide)⟩

/-- C5 (code_bug evaluation): an active debate already holding 20 ballots
accepts a 21st: `cast_vote` succeeds and appends it (the source has no
ballot-count guard and no capacity error code). -/
theorem c5_twenty_first_ballot_accepted :
    debate20.votes.length = 20 ∧
    debate20.status = DebateStatus.Active ∧
    cast_vote debate20 "agent_x" VoteOption.Neutral 70 "" 2 =
      Except.ok { debate20 with votes := debate20.votes ++
        [{ agent_id := "agent_x", vote_option := VoteOption.Neutral,
           confidence := 70, reasoning := "", timestamp := 2 }] } := by
  refine ⟨by decide, by decide, by decide⟩

/-- C6 (code_bug evaluation): `initialize_session` performs no validation
of `required_agents`: it is a total constructor, and both 0 and 11 are
stored verbatim in a fresh `Initialized` record instead of being rejected. -/
theorem c6_no_bounds_check_on_required_agents :
    (init_session "s0" 1 0 false 0).required_agents = 0 ∧
    (init_session "s0" 1 0 false 0).status = SessionStatus.Initialized ∧
    (init_session "s11" 1 11 false 0).required_agents = 11 ∧
    (init_session "s11" 1 11 false 0).status = SessionStatus.Initialized :=
  ⟨rfl, rfl, rfl, rfl⟩

/-- C7 (code_bug evaluation): on an `AgentsSelected` session with
`diversity_required = true` and duplicated `selected_agents`,
`verify_selection` returns `true` although the spec's verdict (including
the diversity conjunct, `specVerify`) is `false`: the source never checks
distinctness. -/
theorem c7_verify_selection_ignores_diversity :
    sessionDup.status = SessionStatus.AgentsSelected ∧
    sessionDup.diversity_required = true ∧
    ¬ sessionDup.selected_agents.Nodup ∧
    verify_selection sessionDup = Except.ok true ∧
    specVerify sessionDup = false := by
  refine ⟨by decide, by decide, by decide, by decide, by decide⟩

/-- C8 (confirmed): every `request_vrf`, `select_agents`, `tally_votes` or
`close_debate` invocation by a caller different from the record's stored
authority fails with the `has_one = authority` constraint violation, so
nothing is written back. -/
theorem c8_unauthorized_caller_rejected (caller : Pubkey)
    (s : CouncilSession) (d : Debate) (seed : Nat) (ids : List String)
    (now : Int) (now2 : Int)
    (hs : caller ≠ s.authority) (hd : caller ≠ d.authority) :
    request_vrf caller s seed =
      Except.error council_selection.Err.hasOneViolation ∧
    select_agents caller s ids now =
      Except.error council_selection.Err.hasOneViolation ∧
    tally_votes caller d now2 = Except.error voting.Err.hasOneViolation ∧
    close_debate caller d = Except.error voting.Err.hasOneViolation := by
  refine ⟨?_, ?_, ?_, ?_⟩
  · unfold request_vrf; rw [if_pos hs]
  · unfold select_agents; rw [if_pos hs]
  · unfold tally_votes; rw [if_pos hd]
  · unfold close_debate; rw [if_pos hd]

/-- Witness for C8 at concrete inputs: caller 2 against records whose
authority is 1. -/
theorem c8_witness :
    request_vrf 2 sessionVF 5 =
      Except.error council_selection.Err.hasOneViolation ∧
    select_agents 2 sessionVF ["a", "b"] 0 =
      Except.error council_selection.Err.hasOneViolation ∧
    tally_votes 2 debate20 0 = Except.error voting.Err.hasOneViolation ∧
    close_debate 2 debate20 = Except.error voting.Err.hasOneViolation :=
  c8_unauthorized_caller_rejected 2 sessionVF debate20 5 ["a", "b"] 0 0
    (by decide) (by decide)

/-- C9 (confirmed): `current_round` is 0 and `max_rounds` keeps its
initialization value in every reachable debate; no mutating transition
writes either field, and `get_results` never reads them (its result is
invariant under changing them). -/
theorem c9_round_fields_frozen :
    (∀ m (d : Debate), DReach m d →
      d.current_round = 0 ∧ d.max_rounds = m) ∧
    (∀ (d : Debate) a vo c r t d',
      cast_vote d a vo c r t = Except.ok d' →
      d'.current_round = d.current_round ∧ d'.max_rounds = d.max_rounds) ∧
    (∀ caller (d : Debate) now d',
      tally_votes caller d now = Except.ok d' →
      d'.current_round = d.current_round ∧ d'.max_rounds = d.max_rounds) ∧
    (∀ caller (d : Debate) d', close_debate caller d = Except.ok d' →
      d'.current_round = d.current_round ∧ d'.max_rounds = d.max_rounds) ∧
    (∀ (d : Debate) x y,
      get_results { d with current_round := x, max_rounds := y } =
        get_results d) := by
  refine ⟨?_, ?_, ?_, ?_, ?_⟩
  · intro m d hreach
    induction hreach with
    | init did topic auth now => exact ⟨rfl, rfl⟩
    | cast a vo c r t hprev hok ih =>
        obtain ⟨-, -, -, rfl⟩ := cast_vote_ok_shape hok
        exact ih
    | tally caller now hprev hok ih =>
        obtain ⟨-, -, -, rfl⟩ := tally_votes_ok_shape hok
        exact ih
    | close caller hprev hok ih =>
        obtain ⟨-, rfl⟩ := close_debate_ok_shape hok
        exact ih
  · intro d a vo c r t d' hok
    obtain ⟨-, -, -, rfl⟩ := cast_vote_ok_shape hok
    exact ⟨rfl, rfl⟩
  · intro caller d now d' hok
    obtain ⟨-, -, -, rfl⟩ := tally_votes_ok_shape hok
    exact ⟨rfl, rfl⟩
  · intro caller d d' hok
    obtain ⟨-, rfl⟩ := close_debate_ok_shape hok
    exact ⟨rfl, rfl⟩
  · intro d x y
    rfl

/-- Witness for C9 at a concrete reachable debate. -/
theorem c9_witness :
    debate29Tallied.current_round = 0 ∧ debate29Tallied.max_rounds = 1 :=
  c9_round_fields_frozen.1 1 debate29Tallied debate29Tallied_reachable

/-- C10 (confirmed): every session reachable through the declared
transitions has one of the four assigned statuses; `Completed` is never
assigned, hence unreachable. -/
theorem c10_completed_status_unreachable (s : CouncilSession)
    (h : SReach s) :
    s.status ≠ SessionStatus.Completed ∧
    (s.status = SessionStatus.Initialized ∨
     s.status = SessionStatus.VRFRequested ∨
     s.status = SessionStatus.VRFFulfilled ∨
     s.status = SessionStatus.AgentsSelected) := by
  induction h with
  | init sid auth ra dr now => exact ⟨by simp [init_session], Or.inl rfl⟩
  | request caller seed hprev hok ih =>
      obtain ⟨-, -, rfl⟩ := request_vrf_ok_shape hok
      exact ⟨by simp, Or.inr (Or.inl rfl)⟩
  | fulfill rn proof hprev hok ih =>
      obtain ⟨-, -, rfl⟩ := fulfill_vrf_ok_shape hok
      exact ⟨by simp, Or.inr (Or.inr (Or.inl rfl))⟩
  | select caller ids now hprev hok ih =>
      obtain ⟨-, -, -, rfl⟩ := select_agents_ok_shape hok
      exact ⟨by simp, Or.inr (Or.inr (Or.inr rfl))⟩

/-- Witness for C10 at a concrete reachable session. -/
theorem c10_witness :
    sessionVF.status ≠ SessionStatus.Completed :=
  (c10_completed_status_unreachable sessionVF sessionVF_reachable).1

/-- C1 counterexample: tallying a single Support ballot with confidence 29
stores `support_score = 28`, while the exact integer sum of confidences
(and therefore the spec's prescribed `min (sum, 65535)`) is 29: the `f64`
accumulation `(29 / 100.0) * 100.0` truncates to 28, so the stored scores
are not the exact integer sums the claim states. -/
theorem c1_counterexample_confidence29 :
    tally_votes 7 debate29 3 = Except.ok debate29Tallied ∧
    debate29Tallied.support_score = 28 ∧
    specScore VoteOption.Support debate29.votes = 29 ∧
    debate29Tallied.support_score ≠
      specScore VoteOption.Support debate29.votes := by
  refine ⟨by decide, by decide, by decide, by decide⟩

namespace fp64

theorem lg2F_spec : ∀ (fuel n : Nat), 1 ≤ n → n < 2 ^ fuel →
    2 ^ (lg2F fuel n) ≤ n ∧ n < 2 ^ (lg2F fuel n + 1) := by
  intro fuel
  induction fuel with
  | zero => intro n h1 h2; simp at h2; omega
  | succ fuel ih =>
      intro n h1 h2
      simp only [lg2F]
      split_ifs with hle
      · have hn1 : n = 1 := by omega
        subst hn1
        norm_num
      · have h2' : n / 2 < 2 ^ fuel := by
          rw [Nat.div_lt_iff_lt_mul (by norm_num)]
          calc n < 2 ^ (fuel + 1) := h2
            _ = 2 ^ fuel * 2 := by ring
        have h1' : 1 ≤ n / 2 := by omega
        obtain ⟨hl, hr⟩ := ih (n / 2) h1' h2'
        constructor
        · rw [pow_succ]
          exact le_trans (Nat.mul_le_mul_right 2 hl)
            (Nat.div_mul_le_self n 2)
        · rw [pow_succ]
          rw [← Nat.div_lt_iff_lt_mul (by norm_num)]
          exact hr

theorem lg2_spec (n : Nat) (h1 : 1 ≤ n) (h2 : n < 2 ^ 2400) :
    2 ^ (lg2 n) ≤ n ∧ n < 2 ^ (lg2 n + 1) :=
  lg2F_spec 2400 n h1 h2

theorem ceilDiv_le_iff (n d m : Nat) (hn : 0 < n) :
    (d + n - 1) / n ≤ m ↔ d ≤ n * m := by
  rw [Nat.div_le_iff_le_mul_add_pred hn]
  omega

theorem nlg_le (n d : Nat) (hn : 1 ≤ n) (hd : d < 2 ^ 2400) :
    d ≤ n * 2 ^ (nlg n d) := by
  unfold nlg
  split_ifs with hle heq
  · simpa using hle
  · exact (ceilDiv_le_iff n d _ hn).mp (le_of_eq heq.symm)
  · have hq1 : 1 ≤ (d + n - 1) / n := by
      rw [Nat.le_div_iff_mul_le hn]
      omega
    have hqd : (d + n - 1) / n < 2 ^ 2400 := by
      have : (d + n - 1) / n ≤ d := by
        rw [ceilDiv_le_iff n d d hn]
        calc d = 1 * d := (one_mul d).symm
          _ ≤ n * d := Nat.mul_le_mul_right d hn
      omega
    obtain ⟨-, hr⟩ := lg2_spec _ hq1 hqd
    exact (ceilDiv_le_iff n d _ hn).mp (Nat.le_of_lt_succ (by omega))

theorem nlg_min (n d : Nat) (hn : 1 ≤ n) (hnd : n < d) (hd : d < 2 ^ 2400) :
    1 ≤ nlg n d ∧ n * 2 ^ (nlg n d - 1) < d := by
  have hq2 : 2 ≤ (d + n - 1) / n := by
    rw [Nat.le_div_iff_mul_le hn]
    omega
  have hq1 : 1 ≤ (d + n - 1) / n := by omega
  have hqd : (d + n - 1) / n < 2 ^ 2400 := by
    have : (d + n - 1) / n ≤ d := by
      rw [ceilDiv_le_iff n d d hn]
      calc d = 1 * d := (one_mul d).symm
        _ ≤ n * d := Nat.mul_le_mul_right d hn
    omega
  obtain ⟨hl, hr⟩ := lg2_spec _ hq1 hqd
  have hnotle : ¬ d ≤ n := by omega
  unfold nlg
  rw [if_neg hnotle]
  split_ifs with heq
  · -- k = lg2 q, with 2 ^ (lg2 q) = q ≥ 2, so lg2 q ≥ 1
    have hk1 : 1 ≤ lg2 ((d + n - 1) / n) := by
      by_contra hc
      have : lg2 ((d + n - 1) / n) = 0 := by omega
      rw [this] at heq
      omega
    refine ⟨hk1, ?_⟩
    have : ¬ ((d + n - 1) / n ≤ 2 ^ (lg2 ((d + n - 1) / n) - 1)) := by
      have hlt : 2 ^ (lg2 ((d + n - 1) / n) - 1) <
          2 ^ (lg2 ((d + n - 1) / n)) :=
        Nat.pow_lt_pow_right (by norm_num) (by omega)
      omega
    have := (not_iff_not.mpr (ceilDiv_le_iff n d _ hn)).mp this
    omega
  · refine ⟨by omega, ?_⟩
    have h2l : 2 ^ lg2 ((d + n - 1) / n) < (d + n - 1) / n := by omega
    have : ¬ ((d + n - 1) / n ≤ 2 ^ (lg2 ((d + n - 1) / n))) := by omega
    have := (not_iff_not.mpr (ceilDiv_le_iff n d _ hn)).mp this
    simpa using by omega

end fp64

namespace fp64

theorem two_zpow_pos (k : Int) : 0 < (2:ℚ) ^ k := zpow_pos (by norm_num) k

theorem two_zpow_mono {m n : Int} (h : m ≤ n) : (2:ℚ) ^ m ≤ (2:ℚ) ^ n :=
  zpow_le_zpow_right₀ (by norm_num) h

theorem floorLog2Q_spec (n d : Nat) (hn : 1 ≤ n) (hd : 1 ≤ d)
    (hn2 : n < 2 ^ 2400) (hd2 : d < 2 ^ 2400) :
    (2:ℚ) ^ (floorLog2Q n d) ≤ (n : ℚ) / (d : ℚ) ∧
      (n : ℚ) / (d : ℚ) < (2:ℚ) ^ (floorLog2Q n d + 1) := by
  have hdq : (0:ℚ) < (d:ℚ) := by exact_mod_cast hd
  unfold floorLog2Q
  split_ifs with hle
  · have h1 : 1 ≤ n / d := (Nat.one_le_div_iff (by omega)).mpr hle
    have h2 : n / d < 2 ^ 2400 := lt_of_le_of_lt (Nat.div_le_self n d) hn2
    obtain ⟨hl, hr⟩ := lg2_spec (n / d) h1 h2
    constructor
    · rw [zpow_natCast, le_div_iff₀ hdq]
      have hnat : 2 ^ lg2 (n / d) * d ≤ n :=
        le_trans (Nat.mul_le_mul_right d hl) (Nat.div_mul_le_self n d)
      exact_mod_cast hnat
    · have hcast : ((lg2 (n / d) : Int) + 1) =
          ((lg2 (n / d) + 1 : Nat) : Int) := by push_cast; ring
      rw [hcast, zpow_natCast, div_lt_iff₀ hdq]
      have hstep : n < (n / d + 1) * d := by
        have hdm := Nat.div_add_mod n d
        have hml : n % d < d := Nat.mod_lt n (by omega)
        calc n = d * (n / d) + n % d := hdm.symm
          _ < d * (n / d) + d := by omega
          _ = (n / d + 1) * d := by ring
      have hnat : n < 2 ^ (lg2 (n / d) + 1) * d :=
        lt_of_lt_of_le hstep (Nat.mul_le_mul_right d hr)
      exact_mod_cast hnat
  · push_neg at hle
    have hk := nlg_le n d hn hd2
    obtain ⟨hk1, hk2⟩ := nlg_min n d hn hle hd2
    constructor
    · rw [zpow_neg, zpow_natCast, ← one_div,
        div_le_div_iff₀ (by positivity) hdq]
      have : (d : ℚ) ≤ (n : ℚ) * 2 ^ nlg n d := by exact_mod_cast hk
      linarith
    · have hexp : (-(nlg n d : Int) + 1) = -((nlg n d - 1 : Nat) : Int) := by
        have : ((nlg n d - 1 : Nat) : Int) = (nlg n d : Int) - 1 := by
          omega
        rw [this]
        ring
      rw [hexp, zpow_neg, zpow_natCast, ← one_div,
        div_lt_div_iff₀ hdq (by positivity)]
      have : (n : ℚ) * 2 ^ (nlg n d - 1) < (d : ℚ) := by exact_mod_cast hk2
      linarith

end fp64

namespace fp64

theorem roundQ_bounds (sn sd : Nat) (hsd : 0 < sd) :
    (sn : ℚ) / (sd : ℚ) - 1 ≤ (roundQ sn sd : ℚ) ∧
      (roundQ sn sd : ℚ) ≤ (sn : ℚ) / (sd : ℚ) + 1 := by
  have hsdq : (0:ℚ) < (sd:ℚ) := by exact_mod_cast hsd
  have h1 : ((sn / sd : Nat) : ℚ) ≤ (sn : ℚ) / (sd : ℚ) := by
    rw [le_div_iff₀ hsdq]
    exact_mod_cast Nat.div_mul_le_self sn sd
  have h2 : (sn : ℚ) / (sd : ℚ) < ((sn / sd : Nat) : ℚ) + 1 := by
    rw [div_lt_iff₀ hsdq]
    have hstep : sn < (sn / sd + 1) * sd := by
      have hdm := Nat.div_add_mod sn sd
      have hml : sn % sd < sd := Nat.mod_lt sn (by omega)
      calc sn = sd * (sn / sd) + sn % sd := hdm.symm
        _ < sd * (sn / sd) + sd := by omega
        _ = (sn / sd + 1) * sd := by ring
    exact_mod_cast hstep
  unfold roundQ
  split_ifs <;> constructor <;> push_cast <;> linarith

theorem val_nonneg (m : Nat) : 0 ≤ val m := by
  unfold val U
  positivity

theorem round53_err (n d : Nat) (hd : 0 < d) (hn2 : n < 2 ^ 2400)
    (hdd : d < 2 ^ 2400) (E : Int)
    (hE : (n : ℚ) / (d : ℚ) < (2:ℚ) ^ (E + 1)) :
    (n : ℚ) / (d : ℚ) - ((2:ℚ) ^ (E - 52) + (2:ℚ) ^ (-1020 : Int)) ≤
        val (round53 n d) ∧
      val (round53 n d) ≤
        (n : ℚ) / (d : ℚ) + ((2:ℚ) ^ (E - 52) + (2:ℚ) ^ (-1020 : Int)) := by
  have hdq : (0:ℚ) < (d:ℚ) := by exact_mod_cast hd
  have hp1 : (0:ℚ) < (2:ℚ) ^ (E - 52) := two_zpow_pos _
  have hp2 : (0:ℚ) < (2:ℚ) ^ (-1020 : Int) := two_zpow_pos _
  unfold round53
  split_ifs with hn0
  · subst hn0
    have hval0 : val 0 = 0 := by unfold val; simp
    rw [hval0]
    constructor
    · simp
      linarith
    · positivity
  · have hn : 1 ≤ n := by omega
    obtain ⟨hel, her⟩ := floorLog2Q_spec n d hn (by omega) hn2 hdd
    set e := floorLog2Q n d with he
    set v := (n : ℚ) / (d : ℚ) with hv
    have hvpos : 0 < v := by rw [hv]; positivity
    have heE : e ≤ E := by
      have hlt := lt_of_le_of_lt hel hE
      have := (zpow_lt_zpow_iff_right₀ (by norm_num : (1:ℚ) < 2)).mp hlt
      omega
    have hsdpos : 0 < d * 2 ^ (e - 52).toNat := by positivity
    have hscaled : ((n * 2 ^ (52 - e).toNat : Nat) : ℚ) /
        ((d * 2 ^ (e - 52).toNat : Nat) : ℚ) = v * (2:ℚ) ^ (52 - e) := by
      rcases le_or_lt e 52 with hc | hc
      · have h1 : (e - 52).toNat = 0 := by omega
        have h2 : ((52 - e).toNat : Int) = 52 - e :=
          Int.toNat_of_nonneg (by omega)
        rw [h1, pow_zero, mul_one, ← h2, zpow_natCast]
        generalize (52 - e).toNat = k
        push_cast
        rw [hv]
        field_simp
      · have h1 : (52 - e).toNat = 0 := by omega
        have h2 : ((e - 52).toNat : Int) = e - 52 :=
          Int.toNat_of_nonneg (by omega)
        have h3 : (2:ℚ) ^ (52 - e) = ((2:ℚ) ^ ((e - 52).toNat))⁻¹ := by
          rw [← zpow_natCast (2:ℚ) ((e - 52).toNat), h2, ← zpow_neg]
          congr 1
          ring
        rw [h1, pow_zero, mul_one, h3, ← zpow_natCast (2:ℚ) ((e - 52).toNat)]
        generalize (e - 52).toNat = k
        rw [zpow_natCast]
        push_cast
        rw [hv]
        field_simp
    obtain ⟨hrq1, hrq2⟩ := roundQ_bounds (n * 2 ^ (52 - e).toNat)
      (d * 2 ^ (e - 52).toNat) hsdpos
    rw [hscaled] at hrq1 hrq2
    have hmulinv : (2:ℚ) ^ (52 - e) * (2:ℚ) ^ (e - 52) = 1 := by
      rw [← zpow_add₀ (two_ne_zero : (2:ℚ) ≠ 0)]
      norm_num
    have hsc2 : v * (2:ℚ) ^ (52 - e) < (2:ℚ) ^ (53:Int) := by
      calc v * (2:ℚ) ^ (52 - e) < (2:ℚ) ^ (e + 1) * (2:ℚ) ^ (52 - e) :=
            mul_lt_mul_of_pos_right her (two_zpow_pos _)
        _ = (2:ℚ) ^ (53:Int) := by
            rw [← zpow_add₀ (two_ne_zero : (2:ℚ) ≠ 0)]
            congr 1
            ring
    set rq := roundQ (n * 2 ^ (52 - e).toNat) (d * 2 ^ (e - 52).toNat)
      with hrqdef
    rcases le_or_lt (-1022 : Int) e with hreg | hsub
    · have ht : ((e - 52 + 1074).toNat : Int) = e + 1022 := by
        rw [Int.toNat_of_nonneg (by omega)]
        ring
      have hval : val (rq * 2 ^ (e - 52 + 1074).toNat) =
          (rq : ℚ) * (2:ℚ) ^ (e - 52) := by
        unfold val U
        push_cast
        rw [← zpow_natCast (2:ℚ) ((e - 52 + 1074).toNat), ht,
          ← zpow_natCast (2:ℚ) 1074]
        have hdiv : (2:ℚ) ^ (e + 1022) / (2:ℚ) ^ ((1074:Nat) : Int) =
            (2:ℚ) ^ (e - 52) := by
          rw [← zpow_sub₀ (two_ne_zero : (2:ℚ) ≠ 0)]
          congr 1
          push_cast
          ring
        rw [mul_div_assoc, hdiv]
      rw [hval]
      have hle : (2:ℚ) ^ (e - 52) ≤ (2:ℚ) ^ (E - 52) :=
        two_zpow_mono (by omega)
      have hgpos : (0:ℚ) < (2:ℚ) ^ (e - 52) := two_zpow_pos _
      constructor
      · have hm : (v * (2:ℚ) ^ (52 - e) - 1) * (2:ℚ) ^ (e - 52) ≤
            (rq : ℚ) * (2:ℚ) ^ (e - 52) :=
          mul_le_mul_of_nonneg_right hrq1 (le_of_lt hgpos)
        have hexpand : (v * (2:ℚ) ^ (52 - e) - 1) * (2:ℚ) ^ (e - 52) =
            v - (2:ℚ) ^ (e - 52) := by
          calc (v * (2:ℚ) ^ (52 - e) - 1) * (2:ℚ) ^ (e - 52) =
              v * ((2:ℚ) ^ (52 - e) * (2:ℚ) ^ (e - 52)) -
                (2:ℚ) ^ (e - 52) := by ring
            _ = v - (2:ℚ) ^ (e - 52) := by rw [hmulinv]; ring
        rw [hexpand] at hm
        linarith
      · have hm : (rq : ℚ) * (2:ℚ) ^ (e - 52) ≤
            (v * (2:ℚ) ^ (52 - e) + 1) * (2:ℚ) ^ (e - 52) :=
          mul_le_mul_of_nonneg_right hrq2 (le_of_lt hgpos)
        have hexpand : (v * (2:ℚ) ^ (52 - e) + 1) * (2:ℚ) ^ (e - 52) =
            v + (2:ℚ) ^ (e - 52) := by
          calc (v * (2:ℚ) ^ (52 - e) + 1) * (2:ℚ) ^ (e - 52) =
              v * ((2:ℚ) ^ (52 - e) * (2:ℚ) ^ (e - 52)) +
                (2:ℚ) ^ (e - 52) := by ring
            _ = v + (2:ℚ) ^ (e - 52) := by rw [hmulinv]; ring
        rw [hexpand] at hm
        linarith
    · have ht : (e - 52 + 1074).toNat = 0 := by omega
      rw [ht, pow_zero, mul_one]
      have h53pos : (0:ℚ) < (2:ℚ) ^ (53:Int) := two_zpow_pos _
      have hrqb : (rq : ℚ) ≤ (2:ℚ) ^ (53:Int) + 1 := by linarith
      have hvala : val rq ≤
          ((2:ℚ) ^ (53:Int) + 1) / (2:ℚ) ^ ((1074:Nat):Int) := by
        unfold val U
        push_cast
        rw [← zpow_natCast (2:ℚ) 1074]
        gcongr
      have hsmall : ((2:ℚ) ^ (53:Int) + 1) / (2:ℚ) ^ ((1074:Nat):Int) ≤
          (2:ℚ) ^ (-1020:Int) := by
        rw [div_le_iff₀ (two_zpow_pos _)]
        have hmul : (2:ℚ) ^ (-1020:Int) * (2:ℚ) ^ ((1074:Nat):Int) =
            (2:ℚ) ^ (54:Int) := by
          rw [← zpow_add₀ (two_ne_zero : (2:ℚ) ≠ 0)]
          norm_num
        rw [hmul]
        have h54 : (2:ℚ) ^ (54:Int) = 2 * (2:ℚ) ^ (53:Int) := by
          rw [show (54:Int) = 1 + 53 by norm_num,
            zpow_add₀ (two_ne_zero : (2:ℚ) ≠ 0)]
          norm_num
        have hone : (1:ℚ) ≤ (2:ℚ) ^ (53:Int) := by
          have := two_zpow_mono (show (0:Int) ≤ 53 by norm_num)
          simpa using this
        linarith
      have hvsmall : v < (2:ℚ) ^ (-1020:Int) := by
        have hmono : (2:ℚ) ^ (e + 1) ≤ (2:ℚ) ^ (-1020:Int) :=
          two_zpow_mono (by omega)
        linarith
      constructor
      · have := val_nonneg rq
        linarith
      · have hchain : val rq ≤ (2:ℚ) ^ (-1020:Int) :=
          le_trans hvala hsmall
        linarith

end fp64

namespace fp64

theorem U_pos : 0 < U := by unfold U; positivity

theorem U_cast : ((U : Nat) : ℚ) = (2:ℚ) ^ (1074 : Nat) := by
  unfold U
  push_cast
  ring

theorem U_lt : U < 2 ^ 2400 := by
  unfold U
  exact Nat.pow_lt_pow_right (by norm_num) (by norm_num)

theorem nat_lt_of_div_U_lt {m : Nat} {E : Int} (hEb : E ≤ 90)
    (h : (m : ℚ) / ((U : Nat) : ℚ) < (2:ℚ) ^ (E + 1)) : m < 2 ^ 2400 := by
  have hUq : (0:ℚ) < ((U : Nat) : ℚ) := by rw [U_cast]; positivity
  have h91 : (2:ℚ) ^ (E + 1) ≤ (2:ℚ) ^ ((91 : Nat) : Int) :=
    two_zpow_mono (by omega)
  rw [zpow_natCast] at h91
  rw [div_lt_iff₀ hUq] at h
  have h1 : (m : ℚ) < (2:ℚ) ^ (91 : Nat) * ((U : Nat) : ℚ) :=
    lt_of_lt_of_le h (mul_le_mul_of_nonneg_right h91 (le_of_lt hUq))
  rw [U_cast, ← pow_add] at h1
  have h2 : (m : ℚ) < (2:ℚ) ^ (2400 : Nat) :=
    lt_of_lt_of_le h1 (pow_le_pow_right₀ (by norm_num) (by norm_num))
  exact_mod_cast h2

theorem fadd_err (a b : Nat) (E : Int) (hEb : E ≤ 90)
    (hab : val a + val b < (2:ℚ) ^ (E + 1)) :
    val a + val b - ((2:ℚ) ^ (E - 52) + (2:ℚ) ^ (-1020 : Int)) ≤
        val (fadd a b) ∧
      val (fadd a b) ≤ val a + val b +
        ((2:ℚ) ^ (E - 52) + (2:ℚ) ^ (-1020 : Int)) := by
  have hveq : ((a + b : Nat) : ℚ) / ((U : Nat) : ℚ) = val a + val b := by
    unfold val
    push_cast
    ring
  have hab' : ((a + b : Nat) : ℚ) / ((U : Nat) : ℚ) < (2:ℚ) ^ (E + 1) := by
    rw [hveq]
    exact hab
  have hsum : a + b < 2 ^ 2400 := nat_lt_of_div_U_lt hEb hab'
  obtain ⟨hl, hr⟩ := round53_err (a + b) U U_pos hsum U_lt E hab'
  rw [hveq] at hl hr
  unfold fadd
  exact ⟨hl, hr⟩

/-- Specialization of `fadd_err` to exponent bound 4 (sums below 32), with
literal error bounds. -/
theorem fadd_err4 (a b : Nat) (hab : val a + val b < 32) :
    val a + val b - (1 / 2 ^ 48 + 1 / 2 ^ 1020 : ℚ) ≤ val (fadd a b) ∧
      val (fadd a b) ≤ val a + val b + (1 / 2 ^ 48 + 1 / 2 ^ 1020 : ℚ) := by
  have h32 : (2:ℚ) ^ ((4:Int) + 1) = 32 := by norm_num
  obtain ⟨hl, hr⟩ := fadd_err a b 4 (by norm_num) (by rw [h32]; exact hab)
  have c1 : (2:ℚ) ^ ((4:Int) - 52) = 1 / 2 ^ 48 := by norm_num
  have c2 : (2:ℚ) ^ (-1020 : Int) = 1 / 2 ^ 1020 := by norm_num
  rw [c1, c2] at hl hr
  exact ⟨hl, hr⟩

theorem small_lt_big : (100 : Nat) < 2 ^ 2400 :=
  lt_of_lt_of_le (by norm_num : (100:Nat) < 2 ^ 7)
    (Nat.pow_le_pow_right (by norm_num) (by norm_num))

/-- The rounding error of `confidence as f64 / 100.0`, with literal
bounds. -/
theorem wdiv100_err (c : Nat) (hc : c ≤ 100) :
    (c : ℚ) / 100 - (1 / 2 ^ 52 + 1 / 2 ^ 1020 : ℚ) ≤ val (wdiv100 c) ∧
      val (wdiv100 c) ≤ (c : ℚ) / 100 + (1 / 2 ^ 52 + 1 / 2 ^ 1020 : ℚ) := by
  have hc2400 : c < 2 ^ 2400 := lt_of_le_of_lt hc small_lt_big
  have hcq : (c : ℚ) ≤ 100 := by exact_mod_cast hc
  have hE : (c : ℚ) / ((100 : Nat) : ℚ) < (2:ℚ) ^ ((0:Int) + 1) := by
    have h2 : (2:ℚ) ^ ((0:Int) + 1) = 2 := by norm_num
    rw [h2, div_lt_iff₀ (by norm_num)]
    push_cast
    linarith
  obtain ⟨hl, hr⟩ := round53_err c 100 (by norm_num) hc2400 small_lt_big 0 hE
  have c1 : (2:ℚ) ^ ((0:Int) - 52) = 1 / 2 ^ 52 := by norm_num
  have c2 : (2:ℚ) ^ (-1020 : Int) = 1 / 2 ^ 1020 := by norm_num
  rw [c1, c2] at hl hr
  push_cast at hl hr
  unfold wdiv100
  exact ⟨hl, hr⟩

/-- The rounding error of the final `score * 100.0` scaling, with literal
bounds (scaled scores stay below `2 ^ 12`). -/
theorem fmul100_err (s : Nat) (hs : 100 * val s < 4096) :
    100 * val s - (1 / 2 ^ 41 + 1 / 2 ^ 1020 : ℚ) ≤ val (fmul100 s) ∧
      val (fmul100 s) ≤ 100 * val s + (1 / 2 ^ 41 + 1 / 2 ^ 1020 : ℚ) := by
  have hveq : ((100 * s : Nat) : ℚ) / ((U : Nat) : ℚ) = 100 * val s := by
    unfold val
    push_cast
    ring
  have hs' : ((100 * s : Nat) : ℚ) / ((U : Nat) : ℚ) < (2:ℚ) ^ ((11:Int) + 1) := by
    rw [hveq]
    have h4096 : (2:ℚ) ^ ((11:Int) + 1) = 4096 := by norm_num
    rw [h4096]
    exact hs
  have hnum : 100 * s < 2 ^ 2400 := nat_lt_of_div_U_lt (by norm_num) hs'
  obtain ⟨hl, hr⟩ := round53_err (100 * s) U U_pos hnum U_lt 11 hs'
  have c1 : (2:ℚ) ^ ((11:Int) - 52) = 1 / 2 ^ 41 := by norm_num
  have c2 : (2:ℚ) ^ (-1020 : Int) = 1 / 2 ^ 1020 := by norm_num
  rw [hveq, c1, c2] at hl hr
  unfold fmul100
  exact ⟨hl, hr⟩

theorem accClose_zero : accClose 0 0 0 := by
  unfold accClose val
  norm_num

theorem accClose_mono {k k' : Nat} {A : ℚ} {m : Nat} (h : accClose k A m)
    (hk : k ≤ k') : accClose k' A m := by
  obtain ⟨h1, h2, h3, h4⟩ := h
  have hkq : (k : ℚ) ≤ (k' : ℚ) := by exact_mod_cast hk
  have hmul : (k : ℚ) * (1 / 2 ^ 46 : ℚ) ≤ (k' : ℚ) * (1 / 2 ^ 46 : ℚ) :=
    mul_le_mul_of_nonneg_right hkq (by norm_num)
  exact ⟨h1, le_trans h2 hkq, by linarith, by linarith⟩

theorem accClose_step {k : Nat} {A : ℚ} {m : Nat} (h : accClose k A m)
    (c : Nat) (hc : c ≤ 100) (hk : k + 1 ≤ 20) :
    accClose (k + 1) (A + (c : ℚ) / 100) (fadd m (wdiv100 c)) := by
  obtain ⟨h1, h2, h3, h4⟩ := h
  obtain ⟨hw1, hw2⟩ := wdiv100_err c hc
  have hcq : (c : ℚ) / 100 ≤ 1 := by
    rw [div_le_one (by norm_num)]
    exact_mod_cast hc
  have hcq0 : (0:ℚ) ≤ (c : ℚ) / 100 := by positivity
  have hknn : (0:ℚ) ≤ (k : ℚ) := Nat.cast_nonneg k
  have hkq : (k : ℚ) ≤ 19 := by exact_mod_cast (by omega : k ≤ 19)
  have hprod : (k : ℚ) * (1 / 2 ^ 46 : ℚ) ≤ 19 := by
    have hm : (k : ℚ) * (1 / 2 ^ 46 : ℚ) ≤ 19 * 1 :=
      mul_le_mul hkq (by norm_num) (by norm_num) (by norm_num)
    linarith
  have hm_up : val m ≤ 20 := by linarith
  have hw_up : val (wdiv100 c) ≤ 2 := by
    have : (1 / 2 ^ 52 + 1 / 2 ^ 1020 : ℚ) ≤ 1 := by norm_num
    linarith
  have hm0 := val_nonneg m
  have hw0 := val_nonneg (wdiv100 c)
  obtain ⟨ha1, ha2⟩ := fadd_err4 m (wdiv100 c) (by linarith)
  have hbudget : (1 / 2 ^ 52 + 1 / 2 ^ 1020 : ℚ) +
      (1 / 2 ^ 48 + 1 / 2 ^ 1020 : ℚ) ≤ (1 / 2 ^ 46 : ℚ) := by norm_num
  refine ⟨by linarith, ?_, ?_, ?_⟩
  · push_cast
    linarith
  · push_cast
    linarith
  · push_cast
    linarith

end fp64

theorem specSum_cons (opt : VoteOption) (v : Vote) (rest : List Vote) :
    specSum opt (v :: rest) =
      (if v.vote_option = opt then v.confidence else 0) + specSum opt rest := by
  unfold specSum
  by_cases h : v.vote_option = opt
  · simp [List.filter_cons, h]
  · simp [List.filter_cons, h]

theorem specSum_le (opt : VoteOption) (votes : List Vote)
    (hconf : ∀ v ∈ votes, v.confidence ≤ 100) :
    specSum opt votes ≤ 100 * votes.length := by
  induction votes with
  | nil => simp [specSum]
  | cons v rest ih =>
      rw [specSum_cons]
      have hv := hconf v (by simp)
      have hr := ih (fun u hu => hconf u (by simp [hu]))
      have hif : (if v.vote_option = opt then v.confidence else 0) ≤ 100 := by
        split_ifs
        · exact hv
        · omega
      simp only [List.length_cons]
      omega

theorem tally_fold_close :
    ∀ (votes : List Vote) (k : Nat) (acc : Nat × Nat × Nat) (As Ao An : ℚ),
      (∀ v ∈ votes, v.confidence ≤ 100) →
      k + votes.length ≤ 20 →
      fp64.accClose k As acc.1 → fp64.accClose k Ao acc.2.1 →
      fp64.accClose k An acc.2.2 →
      fp64.accClose (k + votes.length)
          (As + (specSum VoteOption.Support votes : ℚ) / 100)
          (votes.foldl tallyStep acc).1 ∧
        fp64.accClose (k + votes.length)
          (Ao + (specSum VoteOption.Oppose votes : ℚ) / 100)
          (votes.foldl tallyStep acc).2.1 ∧
        fp64.accClose (k + votes.length)
          (An + (specSum VoteOption.Neutral votes : ℚ) / 100)
          (votes.foldl tallyStep acc).2.2 := by
  intro votes
  induction votes with
  | nil =>
      intro k acc As Ao An hconf hlen hs ho hn
      simp only [List.foldl_nil, List.length_nil, Nat.add_zero, specSum,
        List.filter_nil, List.map_nil, List.sum_nil, Nat.cast_zero,
        zero_div, add_zero]
      exact ⟨hs, ho, hn⟩
  | cons v rest ih =>
      intro k acc As Ao An hconf hlen hs ho hn
      have hcv : v.confidence ≤ 100 := hconf v (by simp)
      have hrest : ∀ u ∈ rest, u.confidence ≤ 100 :=
        fun u hu => hconf u (by simp [hu])
      have hlen' : (k + 1) + rest.length ≤ 20 := by
        simp only [List.length_cons] at hlen
        omega
      have hidx : k + (v :: rest).length = (k + 1) + rest.length := by
        simp only [List.length_cons]
        omega
      rw [List.foldl_cons, hidx]
      rcases hvo : v.vote_option with _ | _ | _ | _
      · have hstep : tallyStep acc v =
            (fp64.fadd acc.1 (fp64.wdiv100 v.confidence),
              acc.2.1, acc.2.2) := by
          unfold tallyStep
          rw [hvo]
        rw [hstep]
        obtain ⟨r1, r2, r3⟩ := ih (k + 1)
          (fp64.fadd acc.1 (fp64.wdiv100 v.confidence), acc.2.1, acc.2.2)
          (As + (v.confidence : ℚ) / 100) Ao An hrest hlen'
          (fp64.accClose_step hs v.confidence hcv (by omega))
          (fp64.accClose_mono ho (Nat.le_succ k))
          (fp64.accClose_mono hn (Nat.le_succ k))
        refine ⟨?_, ?_, ?_⟩
        · have heq : As + (specSum VoteOption.Support (v :: rest) : ℚ) / 100 =
              As + (v.confidence : ℚ) / 100 +
                (specSum VoteOption.Support rest : ℚ) / 100 := by
            rw [specSum_cons, if_pos hvo]
            push_cast
            ring
          rw [heq]
          exact r1
        · have heq : Ao + (specSum VoteOption.Oppose (v :: rest) : ℚ) / 100 =
              Ao + (specSum VoteOption.Oppose rest : ℚ) / 100 := by
            rw [specSum_cons, if_neg (by simp [hvo])]
            push_cast
            ring
          rw [heq]
          exact r2
        · have heq : An + (specSum VoteOption.Neutral (v :: rest) : ℚ) / 100 =
              An + (specSum VoteOption.Neutral rest : ℚ) / 100 := by
            rw [specSum_cons, if_neg (by simp [hvo])]
            push_cast
            ring
          rw [heq]
          exact r3
      · have hstep : tallyStep acc v =
            (acc.1, fp64.fadd acc.2.1 (fp64.wdiv100 v.confidence),
              acc.2.2) := by
          unfold tallyStep
          rw [hvo]
        rw [hstep]
        obtain ⟨r1, r2, r3⟩ := ih (k + 1)
          (acc.1, fp64.fadd acc.2.1 (fp64.wdiv100 v.confidence), acc.2.2)
          As (Ao + (v.confidence : ℚ) / 100) An hrest hlen'
          (fp64.accClose_mono hs (Nat.le_succ k))
          (fp64.accClose_step ho v.confidence hcv (by omega))
          (fp64.accClose_mono hn (Nat.le_succ k))
        refine ⟨?_, ?_, ?_⟩
        · have heq : As + (specSum VoteOption.Support (v :: rest) : ℚ) / 100 =
              As + (specSum VoteOption.Support rest : ℚ) / 100 := by
            rw [specSum_cons, if_neg (by simp [hvo])]
            push_cast
            ring
          rw [heq]
          exact r1
        · have heq : Ao + (specSum VoteOption.Oppose (v :: rest) : ℚ) / 100 =
              Ao + (v.confidence : ℚ) / 100 +
                (specSum VoteOption.Oppose rest : ℚ) / 100 := by
            rw [specSum_cons, if_pos hvo]
            push_cast
            ring
          rw [heq]
          exact r2
        · have heq : An + (specSum VoteOption.Neutral (v :: rest) : ℚ) / 100 =
              An + (specSum VoteOption.Neutral rest : ℚ) / 100 := by
            rw [specSum_cons, if_neg (by simp [hvo])]
            push_cast
            ring
          rw [heq]
          exact r3
      · have hstep : tallyStep acc v =
            (acc.1, acc.2.1,
              fp64.fadd acc.2.2 (fp64.wdiv100 v.confidence)) := by
          unfold tallyStep
          rw [hvo]
        rw [hstep]
        obtain ⟨r1, r2, r3⟩ := ih (k + 1)
          (acc.1, acc.2.1, fp64.fadd acc.2.2 (fp64.wdiv100 v.confidence))
          As Ao (An + (v.confidence : ℚ) / 100) hrest hlen'
          (fp64.accClose_mono hs (Nat.le_succ k))
          (fp64.accClose_mono ho (Nat.le_succ k))
          (fp64.accClose_step hn v.confidence hcv (by omega))
        refine ⟨?_, ?_, ?_⟩
        · have heq : As + (specSum VoteOption.Support (v :: rest) : ℚ) / 100 =
              As + (specSum VoteOption.Support rest : ℚ) / 100 := by
            rw [specSum_cons, if_neg (by simp [hvo])]
            push_cast
            ring
          rw [heq]
          exact r1
        · have heq : Ao + (specSum VoteOption.Oppose (v :: rest) : ℚ) / 100 =
              Ao + (specSum VoteOption.Oppose rest : ℚ) / 100 := by
            rw [specSum_cons, if_neg (by simp [hvo])]
            push_cast
            ring
          rw [heq]
          exact r2
        · have heq : An + (specSum VoteOption.Neutral (v :: rest) : ℚ) / 100 =
              An + (v.confidence : ℚ) / 100 +
                (specSum VoteOption.Neutral rest : ℚ) / 100 := by
            rw [specSum_cons, if_pos hvo]
            push_cast
            ring
          rw [heq]
          exact r3
      · have hstep : tallyStep acc v = acc := by
          unfold tallyStep
          rw [hvo]
        rw [hstep]
        obtain ⟨r1, r2, r3⟩ := ih k acc As Ao An hrest (by omega) hs ho hn
        have hmono : k + rest.length ≤ (k + 1) + rest.length := by omega
        refine ⟨?_, ?_, ?_⟩
        · have heq : As + (specSum VoteOption.Support (v :: rest) : ℚ) / 100 =
              As + (specSum VoteOption.Support rest : ℚ) / 100 := by
            rw [specSum_cons, if_neg (by simp [hvo])]
            push_cast
            ring
          rw [heq]
          exact fp64.accClose_mono r1 hmono
        · have heq : Ao + (specSum VoteOption.Oppose (v :: rest) : ℚ) / 100 =
              Ao + (specSum VoteOption.Oppose rest : ℚ) / 100 := by
            rw [specSum_cons, if_neg (by simp [hvo])]
            push_cast
            ring
          rw [heq]
          exact fp64.accClose_mono r2 hmono
        · have heq : An + (specSum VoteOption.Neutral (v :: rest) : ℚ) / 100 =
              An + (specSum VoteOption.Neutral rest : ℚ) / 100 := by
            rw [specSum_cons, if_neg (by simp [hvo])]
            push_cast
            ring
          rw [heq]
          exact fp64.accClose_mono r3 hmono

theorem tallyAccum_close (votes : List Vote)
    (hconf : ∀ v ∈ votes, v.confidence ≤ 100) (hlen : votes.length ≤ 20) :
    fp64.accClose votes.length
        ((specSum VoteOption.Support votes : ℚ) / 100) (tallyAccum votes).1 ∧
      fp64.accClose votes.length
        ((specSum VoteOption.Oppose votes : ℚ) / 100)
        (tallyAccum votes).2.1 ∧
      fp64.accClose votes.length
        ((specSum VoteOption.Neutral votes : ℚ) / 100)
        (tallyAccum votes).2.2 := by
  have h := tally_fold_close votes 0 (0, 0, 0) 0 0 0 hconf (by omega)
    fp64.accClose_zero fp64.accClose_zero fp64.accClose_zero
  simpa [tallyAccum] using h

theorem score_close (s : Nat) (S : Nat) (hS : S ≤ 2000)
    (h1 : (S : ℚ) / 100 - 20 * (1 / 2 ^ 46 : ℚ) ≤ fp64.val s)
    (h2 : fp64.val s ≤ (S : ℚ) / 100 + 20 * (1 / 2 ^ 46 : ℚ)) :
    S - 1 ≤ fp64.toU16 (fp64.fmul100 s) ∧
      fp64.toU16 (fp64.fmul100 s) ≤ S := by
  have hSq : (S : ℚ) ≤ 2000 := by exact_mod_cast hS
  have hs0 := fp64.val_nonneg s
  have hmul_in : 100 * fp64.val s < 4096 := by
    have hm : 100 * fp64.val s ≤
        100 * ((S : ℚ) / 100 + 20 * (1 / 2 ^ 46 : ℚ)) :=
      mul_le_mul_of_nonneg_left h2 (by norm_num)
    have hexp : 100 * ((S : ℚ) / 100 + 20 * (1 / 2 ^ 46 : ℚ)) =
        S + 2000 * (1 / 2 ^ 46 : ℚ) := by ring
    rw [hexp] at hm
    have hsm : (2000 : ℚ) * (1 / 2 ^ 46 : ℚ) ≤ 1 := by norm_num
    linarith
  obtain ⟨hm1, hm2⟩ := fp64.fmul100_err s hmul_in
  have hb1 : (S : ℚ) - 1 / 4 ≤ fp64.val (fp64.fmul100 s) := by
    have hmm := mul_le_mul_of_nonneg_left h1 (show (0:ℚ) ≤ 100 by norm_num)
    have h100 : 100 * ((S : ℚ) / 100 - 20 * (1 / 2 ^ 46 : ℚ)) =
        S - 2000 * (1 / 2 ^ 46 : ℚ) := by ring
    rw [h100] at hmm
    have hnum : (2000 : ℚ) * (1 / 2 ^ 46) + (1 / 2 ^ 41 + 1 / 2 ^ 1020) ≤
        1 / 4 := by norm_num
    linarith
  have hb2 : fp64.val (fp64.fmul100 s) ≤ (S : ℚ) + 1 / 4 := by
    have hmm := mul_le_mul_of_nonneg_left h2 (show (0:ℚ) ≤ 100 by norm_num)
    have h100 : 100 * ((S : ℚ) / 100 + 20 * (1 / 2 ^ 46 : ℚ)) =
        S + 2000 * (1 / 2 ^ 46 : ℚ) := by ring
    rw [h100] at hmm
    have hnum : (2000 : ℚ) * (1 / 2 ^ 46) + (1 / 2 ^ 41 + 1 / 2 ^ 1020) ≤
        1 / 4 := by norm_num
    linarith
  have hfloor : ⌊fp64.val (fp64.fmul100 s)⌋₊ = fp64.fmul100 s / fp64.U := by
    unfold fp64.val
    rw [Nat.floor_div_nat, Nat.floor_natCast]
  have hub : fp64.fmul100 s / fp64.U ≤ S := by
    rw [← hfloor]
    have hlt : fp64.val (fp64.fmul100 s) < ((S + 1 : Nat) : ℚ) := by
      push_cast
      linarith
    have := (Nat.floor_lt (fp64.val_nonneg _)).mpr hlt
    omega
  have hlb : S - 1 ≤ fp64.fmul100 s / fp64.U := by
    rcases Nat.eq_zero_or_pos S with hS0 | hSpos
    · subst hS0
      omega
    · rw [← hfloor]
      have hcast : ((S - 1 : Nat) : ℚ) ≤ fp64.val (fp64.fmul100 s) := by
        rw [Nat.cast_sub hSpos]
        push_cast
        linarith
      exact Nat.le_floor hcast
  unfold fp64.toU16
  constructor
  · rw [min_eq_left (by omega)]
    exact hlb
  · rw [min_eq_left (by omega)]
    exact hub

/-- C1 (amended): the stored scores are the truncated `f64` weighted
accumulation, which tracks the exact integer sums of confidences to within
one unit: on every successful `tally_votes` of a debate with at most 20
ballots, each of confidence at most 100, each stored score `sc` of an
option with exact confidence sum `S` satisfies `S - 1 ≤ sc ≤ S` (so the
`min (·, 65535)` clamp of the claim is vacuous, and `Abstain` ballots
still contribute nothing), but exact equality can fail by one unit. -/
theorem c1_scores_within_one_of_integer_sums (caller : Pubkey) (d : Debate)
    (now : Int) (d' : Debate) (h : tally_votes caller d now = Except.ok d')
    (hlen : d.votes.length ≤ 20)
    (hconf : ∀ v ∈ d.votes, v.confidence ≤ 100) :
    (specSum VoteOption.Support d.votes - 1 ≤ d'.support_score ∧
        d'.support_score ≤ specSum VoteOption.Support d.votes) ∧
      (specSum VoteOption.Oppose d.votes - 1 ≤ d'.oppose_score ∧
        d'.oppose_score ≤ specSum VoteOption.Oppose d.votes) ∧
      (specSum VoteOption.Neutral d.votes - 1 ≤ d'.neutral_score ∧
        d'.neutral_score ≤ specSum VoteOption.Neutral d.votes) := by
  obtain ⟨-, -, -, rfl⟩ := tally_votes_ok_shape h
  obtain ⟨hcs, hco, hcn⟩ := tallyAccum_close d.votes hconf hlen
  have hlenq : ((d.votes.length : Nat) : ℚ) ≤ 20 := by exact_mod_cast hlen
  have key : ∀ (m : Nat) (S : Nat), S ≤ 2000 →
      fp64.accClose d.votes.length ((S : ℚ) / 100) m →
      S - 1 ≤ fp64.toU16 (fp64.fmul100 m) ∧
        fp64.toU16 (fp64.fmul100 m) ≤ S := by
    intro m S hSb hC
    obtain ⟨hc1, hc2, hc3, hc4⟩ := hC
    have hmul : (d.votes.length : ℚ) * (1 / 2 ^ 46 : ℚ) ≤
        20 * (1 / 2 ^ 46 : ℚ) :=
      mul_le_mul_of_nonneg_right hlenq (by norm_num)
    exact score_close m S hSb (by linarith) (by linarith)
  have hSb : specSum VoteOption.Support d.votes ≤ 2000 := by
    have := specSum_le VoteOption.Support d.votes hconf
    omega
  have hOb : specSum VoteOption.Oppose d.votes ≤ 2000 := by
    have := specSum_le VoteOption.Oppose d.votes hconf
    omega
  have hNb : specSum VoteOption.Neutral d.votes ≤ 2000 := by
    have := specSum_le VoteOption.Neutral d.votes hconf
    omega
  have hss : (tallyResult d now).support_score =
      fp64.toU16 (fp64.fmul100 (tallyAccum d.votes).1) := rfl
  have hos : (tallyResult d now).oppose_score =
      fp64.toU16 (fp64.fmul100 (tallyAccum d.votes).2.1) := rfl
  have hns : (tallyResult d now).neutral_score =
      fp64.toU16 (fp64.fmul100 (tallyAccum d.votes).2.2) := rfl
  rw [hss, hos, hns]
  exact ⟨key _ _ hSb hcs, key _ _ hOb hco, key _ _ hNb hcn⟩

/-- Witness for C1's amended theorem at the concrete fixture `debate29`:
the integer Support sum is 29 and the stored score is 28, within one unit
as the theorem states. -/
theorem c1_witness :
    specSum VoteOption.Support debate29.votes - 1 ≤
        debate29Tallied.support_score ∧
      debate29Tallied.support_score ≤
        specSum VoteOption.Support debate29.votes :=
  (c1_scores_within_one_of_integer_sums 7 debate29 3 debate29Tallied
    (by decide) (by decide) (by decide)).1
